import Mathlib

set_option maxHeartbeats 1000000

namespace RankGPT

/-! Shallow embedding of `src/InstructDistill/instruction_distill.py` and
`src/utils/translate_data.py`.  Lists stand for Python lists and for the
leading dimension of torch tensors; `Option` models expressions that can
raise; `Except` models fatal assertions. -/

/-- Python list indexing `l[i]`: a negative index counts from the end, an
out-of-range index raises (modelled as `none`). -/
def pyIndex (l : List α) (i : Int) : Option α :=
  let j : Int := if i < 0 then i + (l.length : Int) else i
  if 0 ≤ j then l[j.toNat]? else none

/-- Evaluate `f` on every element of a list, failing when any single
evaluation fails (models a Python list comprehension whose body may raise). -/
def mapOption (f : α → Option β) : List α → Option (List β)
  | [] => some []
  | x :: xs =>
    match f x, mapOption f xs with
    | some y, some ys => some (y :: ys)
    | _, _ => none

/-- Accumulator-passing worker for `pySplitWs`. -/
def pySplitAux : List Char → List Char → List (List Char)
  | [], acc => if acc.isEmpty then [] else [acc.reverse]
  | c :: rest, acc =>
    if c.isWhitespace then
      if acc.isEmpty then pySplitAux rest [] else acc.reverse :: pySplitAux rest []
    else pySplitAux rest (c :: acc)

/-- Python `str.split()` with no separator: the maximal runs of
non-whitespace characters, with no empty tokens. -/
def pySplitWs (cs : List Char) : List (List Char) :=
  pySplitAux cs []

/-- Python `str.strip()`: drop leading and trailing whitespace. -/
def pyStrip (cs : List Char) : List Char :=
  ((cs.dropWhile Char.isWhitespace).reverse.dropWhile Char.isWhitespace).reverse

/-- Numeric value of a run of decimal digit characters (the only shape of
token `int` is applied to in `receive_response`). -/
def digitsToNat (tok : List Char) : Nat :=
  tok.foldl (fun n c => 10 * n + (c.toNat - ('0').toNat)) 0

/-! ### Permutation Reconciler: `receive_response` (instruction_distill.py lines 64-95) -/

/-- `clean_response`: copy the response keeping digit characters and turning
every other character into a space, then strip. -/
def clean_response (s : String) : List Char :=
  pyStrip (s.data.map (fun c => if c.isDigit then c else ' '))

/-- Lines 84-85: clean the response, split on whitespace, parse each token as
an integer and subtract one (0-based indices).  After cleaning, every token
is a nonempty run of digits, so `int` cannot fail. -/
def parse_response (s : String) : List Int :=
  (pySplitWs (clean_response s)).map (fun tok => (digitsToNat tok : Int) - 1)

/-- `remove_duplicate`: keep the first occurrence of each value, in order. -/
def remove_duplicate (l : List Int) : List Int :=
  l.foldl (fun acc c => if c ∈ acc then acc else acc ++ [c]) []

/-- Lines 84-90: the reconciled 0-based index order for `n` retrieved
passages — parse, deduplicate, drop out-of-range indices, then append the
missing in-range indices in original order. -/
def reconcile_indices (n : Nat) (s : String) : List Int :=
  let response := remove_duplicate (parse_response s)
  let original_rank : List Int := (List.range n).map (Nat.cast : Nat → Int)
  let valid := response.filter (fun ss => decide (ss ∈ original_rank))
  valid ++ original_rank.filter (fun tt => decide (tt ∉ valid))

/-- A value stored in one field of an emitted JSON-like record. -/
inductive FieldVal (α : Type) where
  | str : String → FieldVal α
  | passages : List α → FieldVal α
deriving DecidableEq

/-- An input record of `receive_response`, shaped as the records the data
file holds (`query`, `query_id`, `positive_passages`, `retrieved_passages`);
passages are kept abstract since the reconciler only rearranges them. -/
structure Item (α : Type) where
  query : String
  query_id : String
  positive_passages : List α
  retrieved_passages : List α
deriving DecidableEq

/-- Lines 84-94 of `receive_response`, for one `(item, response)` pair: the
emitted record is a dict literal with exactly the keys `query`,
`positive_passages` and `retrieved_passages`.  The passage indexing raises
(`none`) if any reconciled index were invalid. -/
def receiveResponseItem (item : Item α) (response : String) :
    Option (List (String × FieldVal α)) :=
  (mapOption (pyIndex item.retrieved_passages)
      (reconcile_indices item.retrieved_passages.length response)).map
    (fun new_passages =>
      [("query", FieldVal.str item.query),
       ("positive_passages", FieldVal.passages item.positive_passages),
       ("retrieved_passages", FieldVal.passages new_passages)])

/-- `receive_response`: zip the data with the responses and reconcile each
pair, collecting the emitted records. -/
def receive_response (data : List (Item α)) (responses : List String) :
    Option (List (List (String × FieldVal α))) :=
  mapOption (fun p => receiveResponseItem p.1 p.2) (data.zip responses)

/-- Python `record[k]` on an emitted record, as an optional lookup. -/
def lookupField (r : List (String × FieldVal α)) (k : String) :
    Option (FieldVal α) :=
  (r.find? (fun p => p.1 == k)).map (fun p => p.2)

/-- The keys of an emitted record, in order. -/
def recordKeys (r : List (String × FieldVal α)) : List String :=
  r.map (fun p => p.1)

/-! ### Distributed Reducer: `split_data` (lines 98-104) and
`gather_tensors` (lines 107-136) -/

/-- Python slicing `l[a:b]` for non-negative bounds (out-of-range bounds
clamp, an empty range yields `[]`). -/
def pySlice (l : List α) (a b : Nat) : List α :=
  (l.drop a).take (b - a)

/-- The tensor branch of `split_data`: `divmod` the leading-dimension length
by `num_processes` and slice out the shard of `process_idx`. -/
def splitTensor (data : List α) (process_idx num_processes : Nat) : List α :=
  let sublist_length := data.length / num_processes
  let remainder := data.length % num_processes
  pySlice data (process_idx * sublist_length + min process_idx remainder)
    ((process_idx + 1) * sublist_length + min (process_idx + 1) remainder)

/-- A value of a collated batch: a tensor (its leading dimension as a list)
or any non-tensor value, kept opaque. -/
inductive BatchValue (α : Type) where
  | tensor : List α → BatchValue α
  | nonTensor : String → BatchValue α
deriving DecidableEq

/-- `split_data`: tensors are sliced per worker, everything else passes
through unchanged. -/
def split_data : BatchValue α → Nat → Nat → BatchValue α
  | BatchValue.tensor l, p, w => BatchValue.tensor (splitTensor l p w)
  | v, _, _ => v

/-- The `pad=True` branch of `gather_tensors`, run by the worker `rank` of an
initialized group.  The `all_gather` collective is modelled as the exchange
that hands every worker the per-rank list of contributed values: sizes are
exchanged, every shard is padded with `zero` rows up to the maximum observed
size, the gathered shards are truncated back to the exchanged true sizes, the
calling worker's own shard is then overwritten verbatim into its rank slot,
and the per-rank list is concatenated. -/
def gather_tensors_padded (shards : List (List α)) (rank : Nat) (zero : α) :
    List α :=
  let sizes := shards.map List.length
  let max_size := sizes.foldl max 0
  let gathered := shards.map (fun t => t ++ List.replicate (max_size - t.length) zero)
  let truncated := (gathered.zip sizes).map (fun p => p.1.take p.2)
  let withOwn := truncated.set rank (shards.getD rank [])
  withOwn.flatten

/-! ### Passage Sampler: `RerankData` (lines 21-52) -/

/-- A passage as the sampler reads it: a `docid` and a `text`. -/
structure Psg where
  docid : String
  text : String
deriving DecidableEq

/-- One data record as `RerankData.__getitem__` reads it. -/
structure RerankItem where
  query : String
  positive_passages : List Psg
  retrieved_passages : List Psg
deriving DecidableEq

/-- `RerankData.prompt` (lines 31-34): truncate the passage to its first 200
whitespace-separated words and render the scoring prompt. -/
def prompt (query psg : String) : String :=
  let truncated := String.intercalate " "
    (((pySplitWs psg.data).map (fun w => String.mk w)).take 200)
  "Predict whether the given passage answer the question.\n\nQuestion: "
    ++ query ++ "\n\nPassage: " ++ truncated
    ++ "\n\nDoes the passage answer the question?"

/-- `RerankData.__getitem__` (lines 36-52): with `label=True` the group is
the first positive's text (`item['positive_passages'][0]` raises — `none` —
on an empty positive list) followed by the negatives whose docid matches no
positive; with `label=False` it is the retrieved passages in order.  The
group is truncated to `psg_num`, padded with the sentinel placeholder, and
rendered to prompts. -/
def getitem (label : Bool) (psg_num : Nat) (item : RerankItem) :
    Option (List String) :=
  let posneg : Option (List String × List String) :=
    if label then
      match item.positive_passages with
      | [] => none
      | p :: _ =>
        let pos_id := item.positive_passages.map (fun psg => psg.docid)
        some ([p.text],
          ((item.retrieved_passages.filter
              (fun psg => decide (psg.docid ∉ pos_id))).map
            (fun psg => psg.text)).take psg_num)
    else
      some ([], ((item.retrieved_passages).map (fun psg => psg.text)).take psg_num)
  posneg.map (fun pn =>
    let passages := (pn.1 ++ pn.2).take psg_num
    let padded := passages ++ List.replicate (psg_num - passages.length) "<padding_passage>"
    padded.map (fun psg => prompt item.query psg))

/-! ### Target Distribution: `train`, line 198 -/

/-- Line 198: `[[1 / (i + 1) for i in range(cols)]] * rows` — one ideal
decaying relevance row, replicated for every example row of the batch.
Python floats are modelled as exact rationals. -/
def y_true (rows cols : Nat) : List (List ℚ) :=
  List.replicate rows
    ((List.range cols).map (fun (i : Nat) => 1 / ((i : ℚ) + 1)))

/-! ### `CombiningTranslator._run_for_input` (translate_data.py lines 61-84) -/

/-- A passage of a raw input record: a `docid` and an optional source rank. -/
structure RawPassage where
  docid : String
  rank : Option Nat
deriving DecidableEq

/-- One parsed line of the raw data file. -/
structure RawRecord where
  query_id : String
  positive_passages : List RawPassage
  retrieved_passages : List RawPassage
deriving DecidableEq

/-- A converted passage, as `_convert_passages` emits it. -/
structure OutPassage where
  docid : String
  title : String
  text : String
  rank : Option Nat
deriving DecidableEq

/-- A converted record, as `_run_for_input` writes it. -/
structure OutRecord where
  query : String
  query_id : String
  positive_passages : List OutPassage
  retrieved_passages : List OutPassage
deriving DecidableEq

/-- `_convert_passages` (lines 86-95): look each docid up in the corpus
(`self._passages[docid]` raises — `none` — on a missing key), keeping the
optional rank. -/
def convert_passages (corpus : String → Option String) (ps : List RawPassage) :
    Option (List OutPassage) :=
  mapOption (fun p => (corpus p.docid).map (fun text =>
    { docid := p.docid, title := "-", text := text, rank := p.rank })) ps

/-- Lines 67-78: convert one raw record (query lookup and both passage
conversions may raise on missing keys). -/
def convert_record (queries corpus : String → Option String) (r : RawRecord) :
    Option OutRecord :=
  match queries r.query_id, convert_passages corpus r.positive_passages,
      convert_passages corpus r.retrieved_passages with
  | some q, some pos, some ret => some ⟨q, r.query_id, pos, ret⟩
  | _, _, _ => none

/-- `_run_for_input` (lines 61-84): convert every record of the segment, then
`assert len(data) == len(perm_part)` before writing the rows and extending
the permutation list.  The returned pair is (rows written, extended
permutation list); a `KeyError` or a failed assertion is a fatal error. -/
def run_for_input (queries corpus : String → Option String)
    (records : List RawRecord) (perm_part : List String)
    (permutations : List String) :
    Except String (List OutRecord × List String) :=
  match mapOption (convert_record queries corpus) records with
  | none => Except.error "KeyError"
  | some data =>
    if data.length = perm_part.length then
      Except.ok (data, permutations ++ perm_part)
    else
      Except.error "assert len(data) == len(perm_part)"

/-! ## Helper lemmas -/

theorem mapOption_length {α β : Type} {f : α → Option β} :
    ∀ {l : List α} {r : List β}, mapOption f l = some r → r.length = l.length := by
  intro l
  induction l with
  | nil =>
    intro r h
    simp only [mapOption, Option.some_inj] at h
    simp [← h]
  | cons x xs ih =>
    intro r h
    simp only [mapOption] at h
    cases hx : f x <;> cases hxs : mapOption f xs <;> simp [hx, hxs] at h
    subst h
    simp [ih hxs]

theorem mapOption_congr {α β : Type} {f g : α → Option β} :
    ∀ {l : List α}, (∀ x ∈ l, f x = g x) → mapOption f l = mapOption g l := by
  intro l
  induction l with
  | nil => intro _; rfl
  | cons x xs ih =>
    intro h
    simp only [mapOption]
    rw [h x (by simp), ih (fun y hy => h y (by simp [hy]))]

theorem mapOption_map {α β γ : Type} {f : β → Option γ} {g : α → β} :
    ∀ {l : List α}, mapOption f (l.map g) = mapOption (fun x => f (g x)) l := by
  intro l
  induction l with
  | nil => rfl
  | cons x xs ih => simp only [List.map_cons, mapOption, ih]

theorem mapOption_perm {α β : Type} {f : α → Option β} {l₁ l₂ : List α}
    (h : l₁.Perm l₂) :
    ∀ {r₁ : List β}, mapOption f l₁ = some r₁ →
      ∃ r₂, mapOption f l₂ = some r₂ ∧ r₁.Perm r₂ := by
  induction h with
  | nil =>
    intro r₁ h₁
    exact ⟨r₁, h₁, List.Perm.refl _⟩
  | @cons x t₁ t₂ _ ih =>
    intro r₁ h₁
    revert h₁
    simp only [mapOption]
    cases f x with
    | none =>
      intro h₁
      exact Option.noConfusion h₁
    | some y =>
      cases ht : mapOption f t₁ with
      | none =>
        intro h₁
        exact Option.noConfusion h₁
      | some ys =>
        intro h₁
        obtain rfl := Option.some.inj h₁
        obtain ⟨r₂, h₂, hp⟩ := ih ht
        rw [h₂]
        exact ⟨y :: r₂, rfl, List.Perm.cons _ hp⟩
  | swap x y l =>
    intro r₁ h₁
    revert h₁
    simp only [mapOption]
    cases f y with
    | none =>
      intro h₁
      exact Option.noConfusion h₁
    | some b =>
      cases f x with
      | none =>
        intro h₁
        exact Option.noConfusion h₁
      | some a =>
        cases mapOption f l with
        | none =>
          intro h₁
          exact Option.noConfusion h₁
        | some rs =>
          intro h₁
          obtain rfl := Option.some.inj h₁
          exact ⟨a :: b :: rs, rfl, List.Perm.swap _ _ _⟩
  | trans _ _ ih₁ ih₂ =>
    intro r₁ h₁
    obtain ⟨r₂, h₂, p₁₂⟩ := ih₁ h₁
    obtain ⟨r₃, h₃, p₂₃⟩ := ih₂ h₂
    exact ⟨r₃, h₃, p₁₂.trans p₂₃⟩

/-- Indexing a list at exactly the positions `0, …, n-1` (as Python ints)
recovers the list. -/
theorem mapOption_pyIndex_range {α : Type} :
    ∀ l : List α,
      mapOption (pyIndex l) ((List.range l.length).map (Nat.cast : Nat → Int)) =
        some l := by
  intro l
  induction l with
  | nil => rfl
  | cons a t ih =>
    have hr : (List.range (a :: t).length).map (Nat.cast : Nat → Int) =
        ((0 : Nat) : Int) ::
          ((List.range t.length).map (Nat.cast : Nat → Int)).map (fun i => i + 1) := by
      simp only [List.length_cons, List.range_succ_eq_map, List.map_cons,
        List.map_map]
      refine congrArg (List.cons _) (List.map_congr_left ?_)
      intro k _
      simp only [Function.comp_apply]
      omega
    rw [hr]
    simp only [mapOption]
    have h0 : pyIndex (a :: t) ((0 : Nat) : Int) = some a := by
      simp [pyIndex]
    have hshift : mapOption (pyIndex (a :: t))
        (((List.range t.length).map (Nat.cast : Nat → Int)).map (fun i => i + 1)) =
        mapOption (pyIndex t) ((List.range t.length).map (Nat.cast : Nat → Int)) := by
      rw [mapOption_map, mapOption_map, mapOption_map]
      refine mapOption_congr ?_
      intro k _
      show pyIndex (a :: t) ((k : Int) + 1) = pyIndex t ((k : Int))
      simp only [pyIndex]
      have hc1 : ¬ ((k : Int) + 1 < 0) := by omega
      have hc2 : ¬ ((k : Int) < 0) := by omega
      have hc3 : (0 : Int) ≤ (k : Int) + 1 := by omega
      have hc4 : (0 : Int) ≤ (k : Int) := by omega
      simp only [if_neg hc1, if_neg hc2, if_pos hc3, if_pos hc4]
      have h5 : ((k : Int) + 1).toNat = k + 1 := by omega
      have h6 : ((k : Int)).toNat = k := by omega
      rw [h5, h6, List.getElem?_cons_succ]
    rw [hshift, ih, h0]

theorem remove_duplicate_aux (l : List Int) :
    ∀ acc : List Int, acc.Nodup →
      (l.foldl (fun acc c => if c ∈ acc then acc else acc ++ [c]) acc).Nodup ∧
      (∀ x, x ∈ l.foldl (fun acc c => if c ∈ acc then acc else acc ++ [c]) acc ↔
        x ∈ acc ∨ x ∈ l) := by
  induction l with
  | nil =>
    intro acc h
    exact ⟨h, by simp⟩
  | cons c t ih =>
    intro acc h
    simp only [List.foldl_cons]
    by_cases hc : c ∈ acc
    · rw [if_pos hc]
      obtain ⟨h1, h2⟩ := ih acc h
      refine ⟨h1, fun x => ?_⟩
      rw [h2 x]
      constructor
      · rintro (hx | hx)
        · exact Or.inl hx
        · exact Or.inr (by simp [hx])
      · rintro (hx | hx)
        · exact Or.inl hx
        · rcases List.mem_cons.1 hx with hx | hx
          · exact Or.inl (hx ▸ hc)
          · exact Or.inr hx
    · rw [if_neg hc]
      have hacc : (acc ++ [c]).Nodup := by
        rw [List.nodup_append]
        exact ⟨h, List.nodup_singleton c, by
          intro a ha hb
          rw [List.mem_singleton] at hb
          exact hc (hb ▸ ha)⟩
      obtain ⟨h1, h2⟩ := ih _ hacc
      refine ⟨h1, fun x => ?_⟩
      rw [h2 x]
      simp only [List.mem_append, List.mem_singleton, List.mem_cons]
      tauto

theorem remove_duplicate_nodup (l : List Int) : (remove_duplicate l).Nodup :=
  (remove_duplicate_aux l [] List.nodup_nil).1

theorem mem_remove_duplicate (l : List Int) (x : Int) :
    x ∈ remove_duplicate l ↔ x ∈ l := by
  have := (remove_duplicate_aux l [] List.nodup_nil).2 x
  simpa [remove_duplicate] using this

/-- The reconciled index order is a permutation of `0, …, n-1`. -/
theorem reconcile_indices_perm (n : Nat) (s : String) :
    (reconcile_indices n s).Perm ((List.range n).map (Nat.cast : Nat → Int)) := by
  set R := remove_duplicate (parse_response s) with hR
  set orig : List Int := (List.range n).map (Nat.cast : Nat → Int) with horig
  set valid := R.filter (fun ss => decide (ss ∈ orig)) with hvalid
  have horig_nodup : orig.Nodup :=
    List.Nodup.map Nat.cast_injective (List.nodup_range n)
  have hvalid_nodup : valid.Nodup := List.Nodup.filter _ (remove_duplicate_nodup _)
  have hvalid_sub : ∀ x ∈ valid, x ∈ orig := by
    intro x hx
    have := List.mem_filter.1 hx
    simpa using this.2
  have hmain : reconcile_indices n s =
      valid ++ orig.filter (fun tt => decide (tt ∉ valid)) := rfl
  rw [hmain]
  rw [List.perm_ext_iff_of_nodup ?_ horig_nodup]
  · intro x
    simp only [List.mem_append, List.mem_filter, decide_eq_true_eq]
    constructor
    · rintro (hx | ⟨hx, _⟩)
      · exact hvalid_sub x hx
      · exact hx
    · intro hx
      by_cases hv : x ∈ valid
      · exact Or.inl hv
      · exact Or.inr ⟨hx, by simpa using hv⟩
  · rw [List.nodup_append]
    refine ⟨hvalid_nodup, List.Nodup.filter _ horig_nodup, ?_⟩
    intro a ha hb
    have := (List.mem_filter.1 hb).2
    simp only [decide_eq_true_eq] at this
    exact this ha

/-- The out-of-range garbage-free fact used by C5: a response with no digit
character reconciles to the identity index order. -/
theorem reconcile_indices_of_no_digit (n : Nat) (s : String)
    (h : ∀ c ∈ s.data, c.isDigit = false) :
    reconcile_indices n s = (List.range n).map (Nat.cast : Nat → Int) := by
  have hclean : clean_response s = [] := by
    unfold clean_response pyStrip
    have hall : ∀ c ∈ s.data.map (fun c => if c.isDigit then c else ' '),
        c.isWhitespace := by
      intro c hc
      obtain ⟨d, hd, rfl⟩ := List.mem_map.1 hc
      rw [h d hd]
      show (' ' : Char).isWhitespace = true
      decide
    rw [List.dropWhile_eq_nil_iff.mpr hall]
    rfl
  have hparse : parse_response s = [] := by
    unfold parse_response
    rw [hclean]
    rfl
  unfold reconcile_indices
  rw [hparse]
  simp [remove_duplicate]

/-! ## Claim theorems -/

/-- C1: for every Example and every raw permutation response string, the
list of retrieved passages produced by `receive_response` is a permutation
of the original `retrieved_passages`: the reconciliation never fails, no
passage is created or destroyed, and the output length equals the input
length. -/
theorem receive_response_is_permutation {α : Type} (item : Item α)
    (response : String) :
    ∃ (rec : List (String × FieldVal α)) (new_passages : List α),
      receiveResponseItem item response = some rec ∧
      lookupField rec "retrieved_passages" = some (FieldVal.passages new_passages) ∧
      new_passages.Perm item.retrieved_passages ∧
      new_passages.length = item.retrieved_passages.length := by
  obtain ⟨r, hr, hp⟩ := mapOption_perm
    (reconcile_indices_perm item.retrieved_passages.length response).symm
    (mapOption_pyIndex_range item.retrieved_passages)
  refine ⟨[("query", FieldVal.str item.query),
      ("positive_passages", FieldVal.passages item.positive_passages),
      ("retrieved_passages", FieldVal.passages r)], r, ?_, rfl, hp.symm,
      hp.symm.length_eq⟩
  simp only [receiveResponseItem, hr, Option.map_some']

/-- C4: on a 3-passage example, the response "5 1 1 1 99" parses to the
0-based indices [4,0,0,0,98]; duplicates are removed keeping the first
occurrence, out-of-range indices are dropped, the missing valid indices are
appended in original order, and the retrieved passages come back in their
original order `[0,1,2]`. -/
theorem reconcile_response_5_1_1_1_99 :
    parse_response "5 1 1 1 99" = [4, 0, 0, 0, 98] ∧
    remove_duplicate [4, 0, 0, 0, 98] = [4, 0, 98] ∧
    ([4, 0, 98] : List Int).filter
      (fun ss => decide (ss ∈ ([0, 1, 2] : List Int))) = [0] ∧
    reconcile_indices 3 "5 1 1 1 99" = [0, 1, 2] ∧
    receiveResponseItem (⟨"q", "7", ["P"], ["A", "B", "C"]⟩ : Item String)
        "5 1 1 1 99" =
      some [("query", FieldVal.str "q"),
            ("positive_passages", FieldVal.passages ["P"]),
            ("retrieved_passages", FieldVal.passages ["A", "B", "C"])] := by
  refine ⟨?_, ?_, ?_, ?_, ?_⟩ <;> rfl

/-- C5: a permutation response with no digit character at all (including the
empty string) makes the reconciler return the retrieved passages unchanged,
and it never fails. -/
theorem receive_response_garbage_identity {α : Type} (item : Item α)
    (response : String) (h : ∀ c ∈ response.data, c.isDigit = false) :
    receiveResponseItem item response =
      some [("query", FieldVal.str item.query),
            ("positive_passages", FieldVal.passages item.positive_passages),
            ("retrieved_passages", FieldVal.passages item.retrieved_passages)] := by
  unfold receiveResponseItem
  rw [reconcile_indices_of_no_digit _ _ h, mapOption_pyIndex_range]
  rfl

/-- Witness for C5 at a garbage response and at the empty response. -/
theorem receive_response_garbage_identity_witness :
    (∀ c ∈ "abc, def!".data, c.isDigit = false) ∧
    receiveResponseItem (⟨"q", "1", ["p"], ["x", "y", "z"]⟩ : Item String)
        "abc, def!" =
      some [("query", FieldVal.str "q"),
            ("positive_passages", FieldVal.passages ["p"]),
            ("retrieved_passages", FieldVal.passages ["x", "y", "z"])] ∧
    receiveResponseItem (⟨"q", "1", ["p"], ["x", "y", "z"]⟩ : Item String) "" =
      some [("query", FieldVal.str "q"),
            ("positive_passages", FieldVal.passages ["p"]),
            ("retrieved_passages", FieldVal.passages ["x", "y", "z"])] :=
  ⟨by decide, receive_response_garbage_identity _ _ (by decide),
    receive_response_garbage_identity _ _ (by decide)⟩

/-- C9: every record emitted by the reconciler holds exactly the keys
`query`, `positive_passages` and `retrieved_passages`, carries the query
text and the positive passages over unchanged, and drops every other input
field — in particular `query_id` is absent. -/
theorem receive_response_record_frame {α : Type} (item : Item α)
    (response : String) (rec : List (String × FieldVal α))
    (h : receiveResponseItem item response = some rec) :
    recordKeys rec = ["query", "positive_passages", "retrieved_passages"] ∧
    lookupField rec "query" = some (FieldVal.str item.query) ∧
    lookupField rec "positive_passages" =
      some (FieldVal.passages item.positive_passages) ∧
    lookupField rec "query_id" = none := by
  unfold receiveResponseItem at h
  cases hm : mapOption (pyIndex item.retrieved_passages)
      (reconcile_indices item.retrieved_passages.length response) with
  | none =>
    rw [hm] at h
    cases h
  | some nps =>
    rw [hm, Option.map_some'] at h
    obtain rfl := Option.some.inj h
    exact ⟨rfl, rfl, rfl, rfl⟩

/-- Witness for C9 at a concrete item (with a `query_id`) and response. -/
theorem receive_response_record_frame_witness :
    recordKeys [("query", FieldVal.str "q"),
      ("positive_passages", FieldVal.passages ["p"]),
      ("retrieved_passages", FieldVal.passages (["b", "a"] : List String))] =
        ["query", "positive_passages", "retrieved_passages"] ∧
    lookupField [("query", FieldVal.str "q"),
      ("positive_passages", FieldVal.passages ["p"]),
      ("retrieved_passages", FieldVal.passages (["b", "a"] : List String))]
        "query" = some (FieldVal.str "q") ∧
    lookupField [("query", FieldVal.str "q"),
      ("positive_passages", FieldVal.passages ["p"]),
      ("retrieved_passages", FieldVal.passages (["b", "a"] : List String))]
        "positive_passages" = some (FieldVal.passages ["p"]) ∧
    lookupField [("query", FieldVal.str "q"),
      ("positive_passages", FieldVal.passages ["p"]),
      ("retrieved_passages", FieldVal.passages (["b", "a"] : List String))]
        "query_id" = none :=
  receive_response_record_frame (⟨"q", "77", ["p"], ["a", "b"]⟩ : Item String)
    "2 1" _ (by rfl)

/-- The slice offsets `split_data` uses: worker `p` starts at
`p * (len / w) + min p (len % w)`. -/
def splitOffset (len w p : Nat) : Nat :=
  p * (len / w) + min p (len % w)

theorem splitTensor_eq_slice {α : Type} (l : List α) (p w : Nat) :
    splitTensor l p w =
      pySlice l (splitOffset l.length w p) (splitOffset l.length w (p + 1)) :=
  rfl

theorem splitOffset_mono (len w : Nat) {p q : Nat} (h : p ≤ q) :
    splitOffset len w p ≤ splitOffset len w q := by
  unfold splitOffset
  have h1 : p * (len / w) ≤ q * (len / w) := Nat.mul_le_mul_right _ h
  have h2 : min p (len % w) ≤ min q (len % w) := min_le_min h (le_refl _)
  omega

theorem splitOffset_zero (len w : Nat) : splitOffset len w 0 = 0 := by
  simp [splitOffset]

theorem splitOffset_last (len w : Nat) (hw : 1 ≤ w) :
    splitOffset len w w = len := by
  unfold splitOffset
  have hr : len % w < w := Nat.mod_lt _ hw
  rw [Nat.min_eq_right (Nat.le_of_lt hr)]
  exact Nat.div_add_mod len w

/-- Concatenating consecutive slices of `l` along a monotone offset sequence
recovers a prefix of `l`. -/
theorem pySlice_flatten {α : Type} (l : List α) (off : Nat → Nat)
    (h0 : off 0 = 0) (hmono : ∀ p, off p ≤ off (p + 1)) :
    ∀ w, ((List.range w).map (fun p => pySlice l (off p) (off (p + 1)))).flatten =
      l.take (off w) := by
  intro w
  induction w with
  | zero => simp [h0]
  | succ n ih =>
    rw [List.range_succ, List.map_append, List.flatten_append, ih]
    simp only [List.map_cons, List.map_nil, List.flatten_cons, List.flatten_nil,
      List.append_nil]
    rw [pySlice]
    have hsum : off (n + 1) = off n + (off (n + 1) - off n) :=
      (Nat.add_sub_cancel' (hmono n)).symm
    conv_rhs => rw [hsum, List.take_add]

/-- Concatenating all worker shards of `split_data` in rank order reproduces
the tensor. -/
theorem splitTensor_flatten {α : Type} (l : List α) (w : Nat) (hw : 1 ≤ w) :
    ((List.range w).map (fun p => splitTensor l p w)).flatten = l := by
  have hmap : (List.range w).map (fun p => splitTensor l p w) =
      (List.range w).map (fun p =>
        pySlice l (splitOffset l.length w p) (splitOffset l.length w (p + 1))) :=
    List.map_congr_left (fun p _ => splitTensor_eq_slice l p w)
  rw [hmap, pySlice_flatten l _ (splitOffset_zero l.length w)
    (fun p => splitOffset_mono _ _ (Nat.le_succ p)), splitOffset_last _ _ hw,
    List.take_length]

/-- The exact shard size of worker `p`: `base + 1` for the first `remainder`
workers, `base` thereafter. -/
theorem splitTensor_length {α : Type} (l : List α) (w p : Nat) (hw : 1 ≤ w)
    (hp : p < w) :
    (splitTensor l p w).length =
      l.length / w + (if p < l.length % w then 1 else 0) := by
  have hb : splitOffset l.length w (p + 1) ≤ l.length := by
    have h1 := splitOffset_mono l.length w (show p + 1 ≤ w from hp)
    rwa [splitOffset_last l.length w hw] at h1
  have ha : splitOffset l.length w p ≤ splitOffset l.length w (p + 1) :=
    splitOffset_mono _ _ (Nat.le_succ p)
  rw [splitTensor_eq_slice, pySlice, List.length_take, List.length_drop]
  have hmul : (p + 1) * (l.length / w) = p * (l.length / w) + l.length / w := by
    ring
  have hr : l.length % w < w := Nat.mod_lt _ hw
  simp only [splitOffset, Nat.min_def] at *
  split_ifs at * <;> omega

/-! lemmas for the padded gather -/

theorem truncate_pad {α : Type} (zero : α) (m : Nat) :
    ∀ shards : List (List α),
      ((shards.map (fun t => t ++ List.replicate (m - t.length) zero)).zip
        (shards.map List.length)).map (fun p => p.1.take p.2) = shards := by
  intro shards
  induction shards with
  | nil => rfl
  | cons t ts ih =>
    simp only [List.map_cons, List.zip_cons_cons]
    rw [List.take_left, ih]

theorem set_getD_self {α : Type} :
    ∀ (l : List (List α)) (n : Nat), n < l.length →
      l.set n (l.getD n []) = l := by
  intro l
  induction l with
  | nil =>
    intro n h
    exact absurd h (Nat.not_lt_zero n)
  | cons x xs ih =>
    intro n h
    cases n with
    | zero => rfl
    | succ m =>
      show x :: xs.set m (xs.getD m []) = x :: xs
      exact congrArg (List.cons x) (ih m (Nat.lt_of_succ_lt_succ h))

/-! ## Claim theorems (continued) -/

/-- C2: for every list of per-worker shards, also of unequal sizes, the
padded gather returns the concatenation, in ascending rank order, of every
worker's exact original un-padded shard content (padding is truncated away
and the caller's own shard sits verbatim in its rank slot). -/
theorem gather_tensors_padded_roundtrip {α : Type} (shards : List (List α))
    (rank : Nat) (zero : α) (hr : rank < shards.length) :
    gather_tensors_padded shards rank zero = shards.flatten := by
  simp only [gather_tensors_padded]
  rw [truncate_pad, set_getD_self shards rank hr]

/-- Witness for C2: three workers with shard sizes 3, 1 and 2. -/
theorem gather_tensors_padded_roundtrip_witness :
    (1 < 3) ∧
    gather_tensors_padded ([[1, 2, 3], [4], [5, 6]] : List (List Int)) 1 0 =
      [1, 2, 3, 4, 5, 6] :=
  ⟨by decide,
    (gather_tensors_padded_roundtrip [[1, 2, 3], [4], [5, 6]] 1 0
      (by decide)).trans (by decide)⟩

/-- C3: for every tensor and every `num_workers ≥ 1`, `split_data` cuts the
leading dimension into contiguous shards of size `base + 1` for the first
`remainder` workers and `base` thereafter (so sizes differ by at most one),
concatenating all shards in rank order reproduces the tensor exactly, and
non-tensor values pass through unchanged. -/
theorem split_data_partition {α : Type} (l : List α) (w : Nat) (hw : 1 ≤ w) :
    (∀ p, p < w → (splitTensor l p w).length =
        l.length / w + (if p < l.length % w then 1 else 0)) ∧
    (∀ p q, p < w → q < w →
        (splitTensor l p w).length ≤ (splitTensor l q w).length + 1) ∧
    ((List.range w).map (fun p => splitTensor l p w)).flatten = l ∧
    (∀ (s : String) (p : Nat),
        split_data (BatchValue.nonTensor s : BatchValue α) p w =
          BatchValue.nonTensor s) ∧
    (∀ p, split_data (BatchValue.tensor l) p w =
        BatchValue.tensor (splitTensor l p w)) := by
  refine ⟨fun p hp => splitTensor_length l w p hw hp, ?_,
    splitTensor_flatten l w hw, fun _ _ => rfl, fun _ => rfl⟩
  intro p q hp hq
  rw [splitTensor_length l w p hw hp, splitTensor_length l w q hw hq]
  split_ifs <;> omega

/-- Witness for C3: seven rows over three workers (shard sizes 3, 2, 2). -/
theorem split_data_partition_witness :
    (1 ≤ 3) ∧
    ((List.range 3).map
        (fun p => splitTensor ([1, 2, 3, 4, 5, 6, 7] : List Int) p 3)).flatten =
      [1, 2, 3, 4, 5, 6, 7] ∧
    (splitTensor ([1, 2, 3, 4, 5, 6, 7] : List Int) 0 3).length = 3 :=
  ⟨by decide, (split_data_partition ([1, 2, 3, 4, 5, 6, 7] : List Int) 3
      (by decide)).2.2.1,
    ((split_data_partition ([1, 2, 3, 4, 5, 6, 7] : List Int) 3
      (by decide)).1 0 (by decide)).trans (by decide)⟩

/-- Truncating to `psg_num` and padding back up always yields exactly
`psg_num` entries. -/
theorem take_pad_length {α β : Type} (n : Nat) (L : List α) (pad : α)
    (f : α → β) :
    ((L.take n ++
      List.replicate (n - (L.take n).length) pad).map f).length = n := by
  have h1 : (L.take n).length ≤ n := List.length_take_le n L
  simp only [List.length_map, List.length_append, List.length_replicate]
  omega

/-- C6: whenever `RerankData.__getitem__` returns a prompt group, the group
holds exactly `psg_num` prompts — for pools smaller than, equal to and
larger than `psg_num`, padding with the sentinel placeholder when short. -/
theorem getitem_length_psg_num (label : Bool) (psg_num : Nat)
    (item : RerankItem) (g : List String)
    (h : getitem label psg_num item = some g) : g.length = psg_num := by
  unfold getitem at h
  cases label with
  | true =>
    cases hpp : item.positive_passages with
    | nil =>
      rw [hpp] at h
      exact Option.noConfusion h
    | cons p rest =>
      rw [hpp] at h
      obtain rfl := Option.some.inj h
      exact take_pad_length psg_num _ _ _
  | false =>
    obtain rfl := Option.some.inj h
    exact take_pad_length psg_num _ _ _

/-- Witness for C6: `psg_num = 2` with pools of size 1, 2 and 3 under
`label=False`, and a `label=True` pool. -/
theorem getitem_length_psg_num_witness :
    ((getitem false 2 ⟨"q", [], [⟨"d1", "t1"⟩]⟩).getD []).length = 2 ∧
    ((getitem false 2 ⟨"q", [], [⟨"d1", "t1"⟩, ⟨"d2", "t2"⟩]⟩).getD []).length = 2 ∧
    ((getitem false 2
        ⟨"q", [], [⟨"d1", "t1"⟩, ⟨"d2", "t2"⟩, ⟨"d3", "t3"⟩]⟩).getD []).length = 2 ∧
    ((getitem true 2
        ⟨"q", [⟨"p1", "pt"⟩], [⟨"p1", "pt"⟩, ⟨"d2", "t2"⟩]⟩).getD []).length = 2 :=
  ⟨getitem_length_psg_num false 2 ⟨"q", [], [⟨"d1", "t1"⟩]⟩ _ rfl,
    getitem_length_psg_num false 2 ⟨"q", [], [⟨"d1", "t1"⟩, ⟨"d2", "t2"⟩]⟩ _ rfl,
    getitem_length_psg_num false 2
      ⟨"q", [], [⟨"d1", "t1"⟩, ⟨"d2", "t2"⟩, ⟨"d3", "t3"⟩]⟩ _ rfl,
    getitem_length_psg_num true 2
      ⟨"q", [⟨"p1", "pt"⟩], [⟨"p1", "pt"⟩, ⟨"d2", "t2"⟩]⟩ _ rfl⟩

/-- C10: with `label=True`, an example with no positive passage makes
`__getitem__` fail on `item['positive_passages'][0]` instead of returning a
prompt group. -/
theorem getitem_label_empty_positives (psg_num : Nat) (item : RerankItem)
    (h : item.positive_passages = []) :
    getitem true psg_num item = none := by
  simp [getitem, h]

/-- Witness for C10: a concrete empty-positives example. -/
theorem getitem_label_empty_positives_witness :
    getitem true 3 ⟨"q", [], [⟨"d", "t"⟩]⟩ = none :=
  getitem_label_empty_positives 3 ⟨"q", [], [⟨"d", "t"⟩]⟩ rfl

/-- C7: every row of the per-batch target distribution assigns position `i`
(0-indexed) the weight `1/(i+1)`; the rows are identical, and for group size
4 each row is `[1, 1/2, 1/3, 1/4]`. -/
theorem y_true_target_distribution (rows cols : Nat) (row : List ℚ)
    (h : row ∈ y_true rows cols) :
    row = (List.range cols).map (fun (i : Nat) => 1 / ((i : ℚ) + 1)) ∧
    row.length = cols ∧
    (∀ i, i < cols → row.getD i 0 = 1 / ((i : ℚ) + 1)) ∧
    (cols = 4 → row = [1, 1/2, 1/3, 1/4]) := by
  have hrow : row = (List.range cols).map (fun (i : Nat) => 1 / ((i : ℚ) + 1)) :=
    List.eq_of_mem_replicate h
  subst hrow
  refine ⟨rfl, by simp, ?_, ?_⟩
  · intro i hi
    have hlen : i < ((List.range cols).map
        (fun (i : Nat) => 1 / ((i : ℚ) + 1))).length := by
      simpa using hi
    rw [List.getD_eq_getElem _ _ hlen, List.getElem_map, List.getElem_range]
  · intro hc
    subst hc
    rw [show List.range 4 = [0, 1, 2, 3] from rfl]
    norm_num

/-- Witness for C7: a two-example batch with group size 4. -/
theorem y_true_target_distribution_witness :
    (([1, 1/2, 1/3, 1/4] : List ℚ) ∈ y_true 2 4) ∧
    ([1, 1/2, 1/3, 1/4] : List ℚ) =
      (List.range 4).map (fun (i : Nat) => 1 / ((i : ℚ) + 1)) :=
  ⟨by
    simp only [y_true, List.mem_replicate]
    rw [show List.range 4 = [0, 1, 2, 3] from rfl]
    norm_num,
    (y_true_target_distribution 2 4 _ (by
      simp only [y_true, List.mem_replicate]
      rw [show List.range 4 = [0, 1, 2, 3] from rfl]
      norm_num)).1⟩

/-- C8: a record-count mismatch between the data segment and its permutation
segment never yields a successful result, and — whenever record conversion
itself succeeds — fails precisely with the length assertion. -/
theorem run_for_input_length_mismatch_fatal
    (queries corpus : String → Option String) (records : List RawRecord)
    (perm_part : List String) (permutations : List String)
    (hlen : records.length ≠ perm_part.length) :
    (∀ out, run_for_input queries corpus records perm_part permutations ≠
        Except.ok out) ∧
    (∀ data, mapOption (convert_record queries corpus) records = some data →
      run_for_input queries corpus records perm_part permutations =
        Except.error "assert len(data) == len(perm_part)") := by
  constructor
  · intro out hok
    unfold run_for_input at hok
    cases hm : mapOption (convert_record queries corpus) records with
    | none =>
      rw [hm] at hok
      cases hok
    | some data =>
      rw [hm] at hok
      have hd : data.length = records.length := mapOption_length hm
      by_cases hc : data.length = perm_part.length
      · exact hlen (by omega)
      · have hok' : (if data.length = perm_part.length then
            Except.ok (data, permutations ++ perm_part)
          else (Except.error "assert len(data) == len(perm_part)" :
            Except String (List OutRecord × List String))) = Except.ok out :=
          hok
        rw [if_neg hc] at hok'
        cases hok'
  · intro data hm
    unfold run_for_input
    rw [hm]
    have hd : data.length = records.length := mapOption_length hm
    show (if data.length = perm_part.length then
        Except.ok (data, permutations ++ perm_part)
      else (Except.error "assert len(data) == len(perm_part)" :
        Except String (List OutRecord × List String))) =
      Except.error "assert len(data) == len(perm_part)"
    rw [if_neg (show ¬ data.length = perm_part.length by omega)]

/-- Witness for C8: one data record against an empty permutation segment. -/
theorem run_for_input_length_mismatch_fatal_witness :
    (([⟨"q1", [], []⟩] : List RawRecord).length ≠ ([] : List String).length) ∧
    run_for_input (fun _ => some "t") (fun _ => some "t")
        [⟨"q1", [], []⟩] [] [] =
      Except.error "assert len(data) == len(perm_part)" :=
  ⟨by decide,
    (run_for_input_length_mismatch_fatal (fun _ => some "t")
      (fun _ => some "t") [⟨"q1", [], []⟩] [] [] (by decide)).2 _ rfl⟩

end RankGPT
